import Mathlib

/-!
# Verification of the session-scoped shopping-cart service (`app.py`)

Shallow embedding of the service's data model and operations:

* Python dicts (`catalog`, per-session carts, the `carts` store) are embedded as
  association lists with dict semantics: update-in-place for an existing key,
  append for a new key, unique keys maintained by construction from an empty dict.
* Python floats are embedded as exact rationals `ℚ`; `round(x, 2)` is embedded as
  round-half-to-even at two decimals (`rnd2`).
* The global `threading.Lock` and concurrent checkout are embedded as an
  interleaving small-step semantics over per-thread program counters (`TPc`),
  mirroring the critical section of `checkout` line by line.
* `int(...)` applied to a JSON payload value is embedded as the fallible
  `pyInt : JVal → Option Int`; a `none` result corresponds to the `ValueError`
  that propagates to the global `@app.errorhandler(Exception)` (HTTP 500).
-/

namespace Shop

/-- A catalog product: `{"id": ..., "name": ..., "price": ...}` in `app.py`. -/
structure Product where
  id : String
  name : String
  price : ℚ
deriving DecidableEq

/-- The fixed in-memory catalog of `app.py` (prices as exact rationals). -/
def catalog : List (String × Product) :=
  [("1", ⟨"1", "Mechanical Keyboard", 99.90⟩),
   ("2", ⟨"2", "Wireless Mouse", 39.50⟩),
   ("3", ⟨"3", "USB-C Hub", 29.00⟩),
   ("4", ⟨"4", "27\" Monitor", 199.00⟩),
   ("5", ⟨"5", "Noise-Canceling Headphones", 149.00⟩)]

/-- Dict lookup (`d.get(k)` / `k in d`): first binding of the key, if any. -/
def alGet {α : Type} : List (String × α) → String → Option α
  | [], _ => none
  | (k, v) :: t, i => if k = i then some v else alGet t i

/-- Dict assignment (`d[k] = v`): update in place if present, else append. -/
def alSet {α : Type} : List (String × α) → String → α → List (String × α)
  | [], i, x => [(i, x)]
  | (k, v) :: t, i, x => if k = i then (i, x) :: t else (k, v) :: alSet t i x

/-- Dict deletion (`del d[k]`): drop the binding of the key. -/
def alErase {α : Type} : List (String × α) → String → List (String × α)
  | [], _ => []
  | (k, v) :: t, i => if k = i then t else (k, v) :: alErase t i

/-- `catalog.get(item_id)`. -/
def catalogFind (i : String) : Option Product := alGet catalog i

/-- A session's cart: dict from item id to quantity (`carts[sid]` in `app.py`). -/
abbrev Cart := List (String × Int)

/-- The store: dict from session id to cart (`carts` in `app.py`). -/
abbrev Store := List (String × Cart)

/-- Round-half-to-even to an integer, the rounding of CPython's `round`
applied to an exact value. -/
def roundHalfEven (q : ℚ) : ℤ :=
  if q - ⌊q⌋ < 1/2 then ⌊q⌋
  else if 1/2 < q - ⌊q⌋ then ⌊q⌋ + 1
  else if Even ⌊q⌋ then ⌊q⌋ else ⌊q⌋ + 1

/-- `round(q, 2)`: round to two decimal places (exact-value model of the
Python builtin used at `app.py` lines 95-96). -/
def rnd2 (q : ℚ) : ℚ := (roundHalfEven (q * 100) : ℚ) / 100

/-- A priced line item as built by `cart_totals`. -/
structure LineItem where
  id : String
  name : String
  unit_price : ℚ
  qty : Int
  line_total : ℚ
deriving DecidableEq

/-- The loop body of `cart_totals`: walk the cart entries carrying the
accumulated `items_detailed` list and the incrementally rounded subtotal. -/
def cartTotalsAux : Cart → List LineItem → ℚ → List LineItem × ℚ
  | [], acc, sub => (acc, sub)
  | (i, q) :: t, acc, sub =>
    match catalogFind i with
    | none => cartTotalsAux t acc sub
    | some p =>
      cartTotalsAux t (acc ++ [⟨p.id, p.name, p.price, q, rnd2 (p.price * (q : ℚ))⟩])
        (rnd2 (sub + rnd2 (p.price * (q : ℚ))))

/-- `cart_totals(cart_items)` (`app.py` lines 87-104): items not in the catalog
are skipped silently; each line total and the running subtotal are rounded. -/
def cartTotals (c : Cart) : List LineItem × ℚ := cartTotalsAux c [] 0

/-- Result of `add_to_cart`'s store-level operation. -/
inductive AddRes
  | invalidItem
  | invalidQty
  | added (items : List LineItem) (subtotal : ℚ)
deriving DecidableEq

/-- Result of `remove_from_cart`'s store-level operation. -/
inductive RemoveRes
  | invalidItem
  | invalidQty
  | notInCart
  | removed (items : List LineItem) (subtotal : ℚ)
deriving DecidableEq

/-- Result of `checkout`'s store-level operation. -/
inductive CheckoutRes
  | emptyCart
  | order (order_id : String) (total : ℚ) (items : List LineItem)
deriving DecidableEq

/-- `get_cart` / `carts.setdefault(session_id, {})`: return the session's cart,
creating an empty one (appended, as dicts append new keys) if absent. -/
def getOrCreate (s : Store) (sid : String) : Cart × Store :=
  match alGet s sid with
  | some c => (c, s)
  | none => ([], alSet s sid [])

/-- `add_to_cart` after payload parsing (`app.py` lines 142-158): validate the
item id, validate the quantity, then increment `cart[item_id]` by `qty`. -/
def addToCart (s : Store) (sid item_id : String) (qty : Int) : AddRes × Store :=
  if item_id = "" ∨ catalogFind item_id = none then (.invalidItem, s)
  else if qty ≤ 0 then (.invalidQty, s)
  else
    let cart := (alGet s sid).getD []
    let cart2 := alSet cart item_id ((alGet cart item_id).getD 0 + qty)
    (.added (cartTotals cart2).1 (cartTotals cart2).2, alSet s sid cart2)

/-- `remove_from_cart` after payload parsing (`app.py` lines 167-189): validate,
`setdefault` the session, fail `NotInCart` if the item is absent, otherwise
decrement and delete the entry when the result is `≤ 0`. -/
def removeFromCart (s : Store) (sid item_id : String) (qty : Int) : RemoveRes × Store :=
  if item_id = "" ∨ catalogFind item_id = none then (.invalidItem, s)
  else if qty ≤ 0 then (.invalidQty, s)
  else
    let p := getOrCreate s sid
    match alGet p.1 item_id with
    | none => (.notInCart, p.2)
    | some v =>
      let cart2 := if v - qty ≤ 0 then alErase p.1 item_id else alSet p.1 item_id (v - qty)
      (.removed (cartTotals cart2).1 (cartTotals cart2).2, alSet p.2 sid cart2)

/-- `clear_cart`: `carts[session_id] = {}`. -/
def clearCart (s : Store) (sid : String) : Store := alSet s sid []

/-- `checkout` (`app.py` lines 200-216): under the lock, read the cart with
`carts.get(session_id, {})` (no session creation), price it, fail `EmptyCart`
if the priced item list is empty (store untouched), otherwise emit the order
and reset the cart to empty.  The generated `str(uuid.uuid4())` is passed in
as `oid`. -/
def checkout (s : Store) (sid oid : String) : CheckoutRes × Store :=
  let cart := (alGet s sid).getD []
  let its := cartTotals cart
  if its.1 = [] then (.emptyCart, s)
  else (.order oid its.2 its.1, alSet s sid [])

/-- A JSON payload value as it reaches `int(payload.get("qty", 1))`.  Only the
shapes exercised by the claims are embedded: JSON integers and JSON strings. -/
inductive JVal
  | jint (n : Int)
  | jstr (s : String)
deriving DecidableEq

/-- Python's `int(...)` on a payload value: an integer converts to itself, a
string converts iff it is a decimal integer literal; otherwise `int` raises
(`none`), and in `app.py` that exception reaches the global
`@app.errorhandler(Exception)` which answers HTTP 500. -/
def pyInt : JVal → Option Int
  | .jint n => some n
  | .jstr s => s.toInt?

/-- Machine-readable reason carried by an error response body. -/
inductive ErrTag
  | invalidItem
  | invalidQty
  | notInCart
  | emptyCart
  | internal
deriving DecidableEq

/-- The observable part of an HTTP response: status code, error reason (if
any), and the `X-Session-Id` response header (if attached). -/
structure HttpResp where
  status : Nat
  err : Option ErrTag
  sessionHeader : Option String
deriving DecidableEq

/-- `get_or_create_session_id`: the request header value when present and
non-empty (Python truthiness), else the freshly minted `str(uuid.uuid4())`. -/
def effectiveSid (reqSid : Option String) (fresh : String) : String :=
  match reqSid with
  | some s => if s = "" then fresh else s
  | none => fresh

/-- `GET /healthz` (`app.py` lines 113-117): returns 200 without calling
`attach_session_header`. -/
def healthHandler : HttpResp := ⟨200, none, none⟩

/-- `GET /catalog`: 200 with the session header attached. -/
def catalogHandler (reqSid : Option String) (fresh : String) : HttpResp :=
  ⟨200, none, some (effectiveSid reqSid fresh)⟩

/-- `GET /cart`: `get_cart` (which creates the session) then 200 with the
session header. -/
def viewCartHandler (s : Store) (reqSid : Option String) (fresh : String) :
    HttpResp × Store :=
  let sid := effectiveSid reqSid fresh
  (⟨200, none, some sid⟩, (getOrCreate s sid).2)

/-- `POST /cart/add` (`app.py` lines 135-158): `int(...)` on the raw quantity
first — a conversion failure escapes to the 500 error handler (no session
header); otherwise the validations and mutation of `addToCart`. -/
def addHandler (s : Store) (reqSid : Option String) (fresh item_id : String)
    (qtyRaw : JVal) : HttpResp × Store :=
  let sid := effectiveSid reqSid fresh
  match pyInt qtyRaw with
  | none => (⟨500, some .internal, none⟩, s)
  | some qty =>
    let r := addToCart s sid item_id qty
    match r.1 with
    | .invalidItem => (⟨400, some .invalidItem, some sid⟩, r.2)
    | .invalidQty => (⟨400, some .invalidQty, some sid⟩, r.2)
    | .added _ _ => (⟨200, none, some sid⟩, r.2)

/-- `POST /cart/remove` (`app.py` lines 160-189), same shape as `addHandler`. -/
def removeHandler (s : Store) (reqSid : Option String) (fresh item_id : String)
    (qtyRaw : JVal) : HttpResp × Store :=
  let sid := effectiveSid reqSid fresh
  match pyInt qtyRaw with
  | none => (⟨500, some .internal, none⟩, s)
  | some qty =>
    let r := removeFromCart s sid item_id qty
    match r.1 with
    | .invalidItem => (⟨400, some .invalidItem, some sid⟩, r.2)
    | .invalidQty => (⟨400, some .invalidQty, some sid⟩, r.2)
    | .notInCart => (⟨400, some .notInCart, some sid⟩, r.2)
    | .removed _ _ => (⟨200, none, some sid⟩, r.2)

/-- `DELETE /cart`: clear and answer 200 with the session header. -/
def clearHandler (s : Store) (reqSid : Option String) (fresh : String) :
    HttpResp × Store :=
  let sid := effectiveSid reqSid fresh
  (⟨200, none, some sid⟩, clearCart s sid)

/-- `POST /checkout`: the store-level checkout, 400 `EmptyCart` or 200, always
with the session header. -/
def checkoutHandler (s : Store) (reqSid : Option String) (fresh oid : String) :
    HttpResp × Store :=
  let sid := effectiveSid reqSid fresh
  match (checkout s sid oid).1 with
  | .emptyCart => (⟨400, some .emptyCart, some sid⟩, (checkout s sid oid).2)
  | .order _ _ _ => (⟨200, none, some sid⟩, (checkout s sid oid).2)

/-- `handle_exception` (`app.py` lines 219-223): generic 500 without the
session header. -/
def exceptionHandler : HttpResp := ⟨500, some .internal, none⟩

/-- One store operation, used to describe reachable store states. -/
inductive Op
  | getOrCreate (sid : String)
  | add (sid item_id : String) (qty : Int)
  | remove (sid item_id : String) (qty : Int)
  | clear (sid : String)
  | checkout (sid oid : String)

/-- The store-state effect of one operation. -/
def applyOp (s : Store) : Op → Store
  | .getOrCreate sid => (getOrCreate s sid).2
  | .add sid i q => (addToCart s sid i q).2
  | .remove sid i q => (removeFromCart s sid i q).2
  | .clear sid => clearCart s sid
  | .checkout sid oid => (checkout s sid oid).2

/-- Store states reachable from the initial empty `carts = {}` by any
sequence of operations. -/
inductive Reach : Store → Prop
  | init : Reach []
  | step (s : Store) (op : Op) : Reach s → Reach (applyOp s op)

/-- Well-formed cart: every entry names a catalog item and has quantity ≥ 1. -/
def CartWF (c : Cart) : Prop := ∀ p ∈ c, catalogFind p.1 ≠ none ∧ 1 ≤ p.2

/-- Well-formed store: every session's cart is well-formed. -/
def StoreWF (s : Store) : Prop := ∀ p ∈ s, CartWF p.2

instance (c : Cart) : Decidable (CartWF c) := by
  unfold CartWF; infer_instance

instance (s : Store) : Decidable (StoreWF s) := by
  unfold StoreWF; infer_instance

/-! ## Interleaving model of concurrent `checkout` on one session

`checkout`'s critical section (`app.py` lines 203-212, guarded by the single
global `threading.Lock`) is split into its observable micro-steps: acquire the
lock; read the cart and price it; on an empty item list release and answer
`EmptyCart`; otherwise clear the cart, then release and answer the order.
Threads interleave arbitrarily, subject only to the lock. -/

/-- Program counter of one thread running `checkout` on the shared session. -/
inductive TPc
  | idle
  | locked
  | gotItems (isEmpty : Bool)
  | cleared
  | doneOk
  | doneEmpty
deriving DecidableEq

/-- Global configuration: lock owner, the session's cart, all thread states. -/
structure Cfg (K : Nat) where
  lock : Option (Fin K)
  cart : Cart
  ts : Fin K → TPc

/-- A thread is inside the `with lock:` block. -/
def inCS : TPc → Prop
  | .locked => True
  | .gotItems _ => True
  | .cleared => True
  | _ => False

/-- A thread has returned from `checkout`. -/
def doneAt : TPc → Prop
  | .doneOk => True
  | .doneEmpty => True
  | _ => False

/-- One interleaved micro-step of some thread. -/
inductive CStep {K : Nat} : Cfg K → Cfg K → Prop
  | acquire (c : Cfg K) (t : Fin K) (ts2 : Fin K → TPc) :
      c.lock = none → c.ts t = .idle → ts2 t = .locked →
      (∀ u, u ≠ t → ts2 u = c.ts u) →
      CStep c ⟨some t, c.cart, ts2⟩
  | read (c : Cfg K) (t : Fin K) (ts2 : Fin K → TPc) :
      c.lock = some t → c.ts t = .locked →
      ts2 t = .gotItems (cartTotals c.cart).1.isEmpty →
      (∀ u, u ≠ t → ts2 u = c.ts u) →
      CStep c ⟨some t, c.cart, ts2⟩
  | failRelease (c : Cfg K) (t : Fin K) (ts2 : Fin K → TPc) :
      c.lock = some t → c.ts t = .gotItems true → ts2 t = .doneEmpty →
      (∀ u, u ≠ t → ts2 u = c.ts u) →
      CStep c ⟨none, c.cart, ts2⟩
  | clearStep (c : Cfg K) (t : Fin K) (ts2 : Fin K → TPc) :
      c.lock = some t → c.ts t = .gotItems false → ts2 t = .cleared →
      (∀ u, u ≠ t → ts2 u = c.ts u) →
      CStep c ⟨some t, [], ts2⟩
  | okRelease (c : Cfg K) (t : Fin K) (ts2 : Fin K → TPc) :
      c.lock = some t → c.ts t = .cleared → ts2 t = .doneOk →
      (∀ u, u ≠ t → ts2 u = c.ts u) →
      CStep c ⟨none, c.cart, ts2⟩

/-- Configurations reachable from `K` idle threads, a free lock, and the
initial cart `c0`. -/
inductive CReach (c0 : Cart) {K : Nat} : Cfg K → Prop
  | init (ts0 : Fin K → TPc) : (∀ t, ts0 t = .idle) → CReach c0 ⟨none, c0, ts0⟩
  | step (a b : Cfg K) : CReach c0 a → CStep a b → CReach c0 b

/-- Inductive invariant for the concurrent-checkout model: the lock owner is
the only thread in the critical section, and either no thread has yet read a
nonempty cart (phase A: cart untouched, everyone idle or merely locked), or a
unique winner `w` exists and the cart is cleared as soon as the winner passes
its read (phase B). -/
def CInv (c0 : Cart) {K : Nat} (c : Cfg K) : Prop :=
  (∀ t, inCS (c.ts t) → c.lock = some t) ∧
  ((c.cart = c0 ∧ ∀ t, c.ts t = .idle ∨ c.ts t = .locked) ∨
   (∃ w, (c.ts w = .gotItems false ∨ c.ts w = .cleared ∨ c.ts w = .doneOk) ∧
     (∀ t, t ≠ w → c.ts t = .idle ∨ c.ts t = .locked ∨
       c.ts t = .gotItems true ∨ c.ts t = .doneEmpty) ∧
     c.cart = if c.ts w = .gotItems false then c0 else []))

/-- The list of priced line items produced by `cart_totals`, in cart order
(specification form of the accumulator in `cartTotalsAux`). -/
def lineItemsOf : Cart → List LineItem
  | [] => []
  | (i, q) :: t =>
    match catalogFind i with
    | none => lineItemsOf t
    | some p => ⟨p.id, p.name, p.price, q, rnd2 (p.price * (q : ℚ))⟩ :: lineItemsOf t

/-- A rational that is a whole number of cents (a two-decimal value). -/
def Cent (q : ℚ) : Prop := ∃ n : ℤ, q = (n : ℚ) / 100

/-! ## Association-list lemmas (dict semantics) -/

theorem alGet_mem {α : Type} {l : List (String × α)} {k : String} {v : α}
    (h : alGet l k = some v) : (k, v) ∈ l := by
  induction l with
  | nil => simp [alGet] at h
  | cons p t ih =>
    obtain ⟨k2, v2⟩ := p
    by_cases hk : k2 = k
    · subst hk
      simp [alGet] at h
      simp [h]
    · simp [alGet, hk] at h
      exact List.mem_cons_of_mem _ (ih h)

theorem mem_alSet {α : Type} {l : List (String × α)} {k : String} {v : α}
    {p : String × α} (h : p ∈ alSet l k v) : p = (k, v) ∨ p ∈ l := by
  induction l with
  | nil => simp [alSet] at h; simp [h]
  | cons q t ih =>
    obtain ⟨k2, v2⟩ := q
    by_cases hk : k2 = k
    · subst hk
      simp [alSet] at h
      rcases h with h | h
      · exact Or.inl h
      · exact Or.inr (List.mem_cons_of_mem _ h)
    · simp [alSet, hk] at h
      rcases h with h | h
      · exact Or.inr (by simp [h])
      · rcases ih h with h2 | h2
        · exact Or.inl h2
        · exact Or.inr (List.mem_cons_of_mem _ h2)

theorem mem_alErase {α : Type} {l : List (String × α)} {k : String}
    {p : String × α} (h : p ∈ alErase l k) : p ∈ l := by
  induction l with
  | nil => simp [alErase] at h
  | cons q t ih =>
    obtain ⟨k2, v2⟩ := q
    by_cases hk : k2 = k
    · simp [alErase, hk] at h
      exact List.mem_cons_of_mem _ h
    · simp [alErase, hk] at h
      rcases h with h | h
      · simp [h]
      · exact List.mem_cons_of_mem _ (ih h)

theorem alGet_alSet_self {α : Type} (l : List (String × α)) (k : String) (v : α) :
    alGet (alSet l k v) k = some v := by
  induction l with
  | nil => simp [alSet, alGet]
  | cons q t ih =>
    obtain ⟨k2, v2⟩ := q
    by_cases hk : k2 = k
    · subst hk; simp [alSet, alGet]
    · simp [alSet, alGet, hk, ih]

theorem alGet_alSet_ne {α : Type} (l : List (String × α)) {k k2 : String}
    (v : α) (h : k ≠ k2) : alGet (alSet l k v) k2 = alGet l k2 := by
  induction l with
  | nil => simp [alSet, alGet, h]
  | cons q t ih =>
    obtain ⟨k3, v3⟩ := q
    by_cases hk : k3 = k
    · subst hk; simp [alSet, alGet, h]
    · simp only [alSet, hk, if_false]
      by_cases hk2 : k3 = k2
      · subst hk2; simp [alGet]
      · simp [alGet, hk2, ih]

/-! ## Pricing lemmas -/

theorem roundHalfEven_int (n : ℤ) : roundHalfEven (n : ℚ) = n := by
  unfold roundHalfEven
  rw [Int.floor_intCast]
  norm_num

theorem cent_rnd2 (q : ℚ) : Cent (rnd2 q) := ⟨roundHalfEven (q * 100), rfl⟩

theorem cent_zero : Cent 0 := ⟨0, by norm_num⟩

theorem cent_add {a b : ℚ} (ha : Cent a) (hb : Cent b) : Cent (a + b) := by
  obtain ⟨m, rfl⟩ := ha
  obtain ⟨n, rfl⟩ := hb
  exact ⟨m + n, by push_cast; ring⟩

theorem rnd2_of_cent {q : ℚ} (h : Cent q) : rnd2 q = q := by
  obtain ⟨n, rfl⟩ := h
  unfold rnd2
  have h1 : ((n : ℚ) / 100) * 100 = (n : ℚ) := by
    field_simp
  rw [h1, roundHalfEven_int]

theorem cent_sum_lineItems (c : Cart) :
    Cent ((lineItemsOf c).map LineItem.line_total).sum := by
  induction c with
  | nil => exact cent_zero
  | cons p t ih =>
    obtain ⟨i, q⟩ := p
    unfold lineItemsOf
    cases h : catalogFind i with
    | none => simpa using ih
    | some prod => simpa using cent_add (cent_rnd2 _) ih

theorem cartTotalsAux_fst (t : Cart) :
    ∀ acc sub, (cartTotalsAux t acc sub).1 = acc ++ lineItemsOf t := by
  induction t with
  | nil => intro acc sub; simp [cartTotalsAux, lineItemsOf]
  | cons p r ih =>
    intro acc sub
    obtain ⟨i, q⟩ := p
    unfold cartTotalsAux lineItemsOf
    cases h : catalogFind i with
    | none => simp [ih]
    | some prod => simp [ih]

theorem cartTotalsAux_snd (t : Cart) :
    ∀ sub, Cent sub → ∀ acc, (cartTotalsAux t acc sub).2 =
      sub + ((lineItemsOf t).map LineItem.line_total).sum := by
  induction t with
  | nil => intro sub _ acc; simp [cartTotalsAux, lineItemsOf]
  | cons p r ih =>
    intro sub hsub acc
    obtain ⟨i, q⟩ := p
    unfold cartTotalsAux lineItemsOf
    cases h : catalogFind i with
    | none => simp [ih sub hsub]
    | some prod =>
      have hstep : rnd2 (sub + rnd2 (prod.price * (q : ℚ))) =
          sub + rnd2 (prod.price * (q : ℚ)) :=
        rnd2_of_cent (cent_add hsub (cent_rnd2 _))
      simp only [hstep]
      rw [ih _ (cent_add hsub (cent_rnd2 _))]
      simp
      ring

theorem cartTotals_fst (c : Cart) : (cartTotals c).1 = lineItemsOf c := by
  simpa using cartTotalsAux_fst c [] 0

theorem cartTotals_snd (c : Cart) :
    (cartTotals c).2 = ((lineItemsOf c).map LineItem.line_total).sum := by
  have := cartTotalsAux_snd c 0 cent_zero []
  simpa [cartTotals] using this

theorem lineItemsOf_line_total {c : Cart} {li : LineItem}
    (h : li ∈ lineItemsOf c) : li.line_total = rnd2 (li.unit_price * (li.qty : ℚ)) := by
  induction c with
  | nil => simp [lineItemsOf] at h
  | cons p t ih =>
    obtain ⟨i, q⟩ := p
    unfold lineItemsOf at h
    cases h2 : catalogFind i with
    | none => rw [h2] at h; exact ih h
    | some prod =>
      rw [h2] at h
      rcases List.mem_cons.mp h with h3 | h3
      · subst h3; rfl
      · exact ih h3

/-! ## Well-formedness: reachable stores only hold catalog items with
positive quantities -/

theorem cartWF_nil : CartWF [] := by
  intro p hp
  simp at hp

theorem cartWF_getD {s : Store} (h : StoreWF s) (sid : String) :
    CartWF ((alGet s sid).getD []) := by
  cases h2 : alGet s sid with
  | none => simpa using cartWF_nil
  | some c => simpa using h (sid, c) (alGet_mem h2)

theorem cartWF_alSet {c : Cart} {i : String} {v : Int} (h : CartWF c)
    (hcat : catalogFind i ≠ none) (hv : 1 ≤ v) : CartWF (alSet c i v) := by
  intro p hp
  rcases mem_alSet hp with h2 | h2
  · subst h2; exact ⟨hcat, hv⟩
  · exact h p h2

theorem cartWF_alErase {c : Cart} {i : String} (h : CartWF c) :
    CartWF (alErase c i) := by
  intro p hp
  exact h p (mem_alErase hp)

theorem storeWF_alSet {s : Store} {c : Cart} (h : StoreWF s) (sid : String)
    (hc : CartWF c) : StoreWF (alSet s sid c) := by
  intro p hp
  rcases mem_alSet hp with h2 | h2
  · subst h2; exact hc
  · exact h p h2

theorem cartWF_lookup_pos {c : Cart} (h : CartWF c) {i : String} {v : Int}
    (h2 : alGet c i = some v) : 1 ≤ v := by
  exact (h (i, v) (alGet_mem h2)).2

theorem storeWF_applyOp {s : Store} (h : StoreWF s) (op : Op) :
    StoreWF (applyOp s op) := by
  cases op with
  | getOrCreate sid =>
    simp only [applyOp, getOrCreate]
    cases h2 : alGet s sid with
    | some c => simp only [h2]; exact h
    | none => simp only [h2]; exact storeWF_alSet h sid cartWF_nil
  | add sid i q =>
    simp only [applyOp, addToCart]
    by_cases h1 : i = "" ∨ catalogFind i = none
    · simp only [h1, if_true]; exact h
    · simp only [h1, if_false]
      by_cases h2 : q ≤ 0
      · simp only [h2, if_true]; exact h
      · simp only [h2, if_false]
        refine storeWF_alSet h sid (cartWF_alSet (cartWF_getD h sid) ?_ ?_)
        · exact fun hc => h1 (Or.inr hc)
        · cases h3 : alGet ((alGet s sid).getD []) i with
          | none => simp; omega
          | some v =>
            have := cartWF_lookup_pos (cartWF_getD h sid) h3
            simp; omega
  | remove sid i q =>
    simp only [applyOp, removeFromCart]
    by_cases h1 : i = "" ∨ catalogFind i = none
    · simp only [h1, if_true]; exact h
    · simp only [h1, if_false]
      by_cases h2 : q ≤ 0
      · simp only [h2, if_true]; exact h
      · simp only [h2, if_false, getOrCreate]
        cases h3 : alGet s sid with
        | none =>
          simp only [alGet]
          exact storeWF_alSet h sid cartWF_nil
        | some cart =>
          have hcart : CartWF cart := by simpa using h (sid, cart) (alGet_mem h3)
          cases h4 : alGet cart i with
          | none => simp only [h4]; exact h
          | some v =>
            simp only [h4]
            by_cases h5 : v - q ≤ 0
            · simp only [h5, if_true]
              exact storeWF_alSet h sid (cartWF_alErase hcart)
            · simp only [h5, if_false]
              refine storeWF_alSet h sid (cartWF_alSet hcart ?_ ?_)
              · exact fun hc => h1 (Or.inr hc)
              · omega
  | clear sid =>
    exact storeWF_alSet h sid cartWF_nil
  | checkout sid oid =>
    simp only [applyOp, checkout]
    by_cases h1 : (cartTotals ((alGet s sid).getD [])).1 = []
    · simp only [h1, if_true]; exact h
    · simp only [h1, if_false]
      exact storeWF_alSet h sid cartWF_nil

theorem reach_storeWF {s : Store} (h : Reach s) : StoreWF s := by
  induction h with
  | init => intro p hp; simp at hp
  | step s op _ ih => exact storeWF_applyOp ih op

theorem lineItemsOf_eq_nil_iff {c : Cart} (h : CartWF c) :
    lineItemsOf c = [] ↔ c = [] := by
  constructor
  · intro h2
    cases c with
    | nil => rfl
    | cons p t =>
      obtain ⟨i, q⟩ := p
      have hcat := (h (i, q) (by simp)).1
      unfold lineItemsOf at h2
      cases h3 : catalogFind i with
      | none => exact absurd h3 hcat
      | some prod => rw [h3] at h2; simp at h2
  · intro h2; subst h2; rfl

/-! ## Concurrent checkout: the invariant holds initially and is preserved -/

theorem cinv_init (c0 : Cart) {K : Nat} (ts0 : Fin K → TPc)
    (h : ∀ t, ts0 t = .idle) : CInv c0 (⟨none, c0, ts0⟩ : Cfg K) := by
  constructor
  · intro t ht
    have ht2 : inCS (ts0 t) := ht
    rw [h t] at ht2
    exact absurd ht2 (by simp [inCS])
  · exact Or.inl ⟨rfl, fun t => Or.inl (h t)⟩

theorem cinv_step {c0 : Cart} {K : Nat} {a b : Cfg K}
    (h0 : (cartTotals c0).1 ≠ []) (hinv : CInv c0 a) (hstep : CStep a b) :
    CInv c0 b := by
  obtain ⟨hmux, hphase⟩ := hinv
  have hie : (cartTotals c0).1.isEmpty = false := by
    cases hc : (cartTotals c0).1 with
    | nil => exact absurd hc h0
    | cons x xs => rfl
  cases hstep with
  | acquire t ts2 hl hpc ht hu =>
    constructor
    · intro u hcs
      dsimp only at hcs ⊢
      by_cases hut : u = t
      · subst hut; rfl
      · rw [hu u hut] at hcs
        rw [hmux u hcs] at hl
        cases hl
    · dsimp only
      rcases hphase with ⟨hcart, hall⟩ | ⟨w, hw, hoth, hcart⟩
      · refine Or.inl ⟨hcart, fun u => ?_⟩
        by_cases hut : u = t
        · subst hut; exact Or.inr ht
        · rw [hu u hut]; exact hall u
      · have htw : t ≠ w := by
          intro hq
          subst hq
          rcases hw with hw1 | hw1 | hw1 <;> rw [hpc] at hw1 <;> cases hw1
        refine Or.inr ⟨w, ?_, ?_, ?_⟩
        · rw [hu w (Ne.symm htw)]; exact hw
        · intro u huw
          by_cases hut : u = t
          · subst hut; exact Or.inr (Or.inl ht)
          · rw [hu u hut]; exact hoth u huw
        · rw [hu w (Ne.symm htw)]
          exact hcart
  | read t ts2 hl hpc ht hu =>
    constructor
    · intro u hcs
      dsimp only at hcs ⊢
      by_cases hut : u = t
      · subst hut; rfl
      · rw [hu u hut] at hcs
        have h2 := hmux u hcs
        rw [hl] at h2
        exact absurd (Option.some.inj h2).symm hut
    · dsimp only
      rcases hphase with ⟨hcart, hall⟩ | ⟨w, hw, hoth, hcart⟩
      · -- phase A: the reader sees the nonempty initial cart and wins
        have ht2 : ts2 t = .gotItems false := by
          rw [ht, hcart, hie]
        refine Or.inr ⟨t, Or.inl ht2, ?_, ?_⟩
        · intro u hut
          rw [hu u hut]
          rcases hall u with h2 | h2
          · exact Or.inl h2
          · exact Or.inr (Or.inl h2)
        · rw [ht2]
          simpa using hcart
      · -- phase B: the winner is already done, the reader sees the empty cart
        have hwOk : a.ts w = .doneOk := by
          rcases hw with hw1 | hw1 | hw1
          · exfalso
            have h2 := hmux w (by rw [hw1]; trivial)
            rw [hl] at h2
            have h3 := (Option.some.inj h2)
            subst h3
            rw [hpc] at hw1
            cases hw1
          · exfalso
            have h2 := hmux w (by rw [hw1]; trivial)
            rw [hl] at h2
            have h3 := (Option.some.inj h2)
            subst h3
            rw [hpc] at hw1
            cases hw1
          · exact hw1
        have hcartNil : a.cart = [] := by
          rw [hwOk] at hcart
          simpa using hcart
        have htw : t ≠ w := by
          intro hq; subst hq; rw [hpc] at hwOk; cases hwOk
        have ht2 : ts2 t = .gotItems true := by
          rw [ht, hcartNil]; rfl
        refine Or.inr ⟨w, ?_, ?_, ?_⟩
        · rw [hu w (Ne.symm htw)]; exact hw
        · intro u huw
          by_cases hut : u = t
          · subst hut; rw [ht2]; exact Or.inr (Or.inr (Or.inl rfl))
          · rw [hu u hut]; exact hoth u huw
        · rw [hu w (Ne.symm htw), hwOk, hcartNil]
          simp
  | failRelease t ts2 hl hpc ht hu =>
    constructor
    · intro u hcs
      dsimp only at hcs ⊢
      by_cases hut : u = t
      · subst hut; rw [ht] at hcs; exact absurd hcs (by simp [inCS])
      · rw [hu u hut] at hcs
        have h2 := hmux u hcs
        rw [hl] at h2
        exact absurd (Option.some.inj h2).symm hut
    · dsimp only
      rcases hphase with ⟨hcart, hall⟩ | ⟨w, hw, hoth, hcart⟩
      · exfalso
        rcases hall t with h2 | h2 <;> rw [hpc] at h2 <;> cases h2
      · have htw : t ≠ w := by
          intro hq
          subst hq
          rcases hw with hw1 | hw1 | hw1 <;> rw [hpc] at hw1 <;> cases hw1
        have hwOk : a.ts w = .doneOk := by
          rcases hw with hw1 | hw1 | hw1
          · exfalso
            have h2 := hmux w (by rw [hw1]; trivial)
            rw [hl] at h2
            exact htw (Option.some.inj h2)
          · exfalso
            have h2 := hmux w (by rw [hw1]; trivial)
            rw [hl] at h2
            exact htw (Option.some.inj h2)
          · exact hw1
        have hcartNil : a.cart = [] := by
          rw [hwOk] at hcart
          simpa using hcart
        refine Or.inr ⟨w, ?_, ?_, ?_⟩
        · rw [hu w (Ne.symm htw)]; exact hw
        · intro u huw
          by_cases hut : u = t
          · subst hut; exact Or.inr (Or.inr (Or.inr ht))
          · rw [hu u hut]; exact hoth u huw
        · rw [hu w (Ne.symm htw), hwOk, hcartNil]
          simp
  | clearStep t ts2 hl hpc ht hu =>
    constructor
    · intro u hcs
      dsimp only at hcs ⊢
      by_cases hut : u = t
      · subst hut; rfl
      · rw [hu u hut] at hcs
        have h2 := hmux u hcs
        rw [hl] at h2
        exact absurd (Option.some.inj h2).symm hut
    · dsimp only
      rcases hphase with ⟨hcart, hall⟩ | ⟨w, hw, hoth, hcart⟩
      · exfalso
        rcases hall t with h2 | h2 <;> rw [hpc] at h2 <;> cases h2
      · have htw : t = w := by
          by_contra hq
          rcases hoth t hq with h2 | h2 | h2 | h2 <;> rw [hpc] at h2 <;> cases h2
        subst htw
        refine Or.inr ⟨t, Or.inr (Or.inl ht), ?_, ?_⟩
        · intro u hut
          rw [hu u hut]; exact hoth u hut
        · rw [ht]
          simp
  | okRelease t ts2 hl hpc ht hu =>
    constructor
    · intro u hcs
      dsimp only at hcs ⊢
      by_cases hut : u = t
      · subst hut; rw [ht] at hcs; exact absurd hcs (by simp [inCS])
      · rw [hu u hut] at hcs
        have h2 := hmux u hcs
        rw [hl] at h2
        exact absurd (Option.some.inj h2).symm hut
    · dsimp only
      rcases hphase with ⟨hcart, hall⟩ | ⟨w, hw, hoth, hcart⟩
      · exfalso
        rcases hall t with h2 | h2 <;> rw [hpc] at h2 <;> cases h2
      · have htw : t = w := by
          by_contra hq
          rcases hoth t hq with h2 | h2 | h2 | h2 <;> rw [hpc] at h2 <;> cases h2
        subst htw
        have hcartNil : a.cart = [] := by
          rw [hpc] at hcart
          simpa using hcart
        refine Or.inr ⟨t, Or.inr (Or.inr ht), ?_, ?_⟩
        · intro u hut
          rw [hu u hut]; exact hoth u hut
        · rw [ht, hcartNil]
          simp

theorem creach_cinv {c0 : Cart} {K : Nat} {cfg : Cfg K}
    (h0 : (cartTotals c0).1 ≠ []) (h : CReach c0 cfg) : CInv c0 cfg := by
  induction h with
  | init ts0 hts0 => exact cinv_init c0 ts0 hts0
  | step a b _ hstep ih => exact cinv_step h0 ih hstep

/-! ## Claim theorems -/

/-- C4: for every cart snapshot, the pricing function returns line items each
satisfying `line_total == round(unit_price * qty, 2)`, and a subtotal
satisfying `subtotal == round(sum of all line_total values, 2)`. -/
theorem cart_totals_pricing (c : Cart) :
    (∀ li ∈ (cartTotals c).1, li.line_total = rnd2 (li.unit_price * (li.qty : ℚ))) ∧
    (cartTotals c).2 = rnd2 (((cartTotals c).1.map LineItem.line_total).sum) := by
  constructor
  · intro li hli
    rw [cartTotals_fst] at hli
    exact lineItemsOf_line_total hli
  · rw [cartTotals_snd, cartTotals_fst]
    exact (rnd2_of_cent (cent_sum_lineItems c)).symm

/-- C5: in every store state reachable by any sequence of operations, every
entry of every session's cart has quantity ≥ 1. -/
theorem reachable_qty_positive (s : Store) (h : Reach s) :
    ∀ sid c, alGet s sid = some c → ∀ p ∈ c, 1 ≤ p.2 := by
  intro sid c h2 p hp
  exact ((reach_storeWF h) (sid, c) (alGet_mem h2) p hp).2

/-- C5 witness: after `add("A", "1", 2)` from the initial store, the entry
for item `"1"` has quantity ≥ 1. -/
theorem reachable_qty_positive_witness : (1 : Int) ≤ ("1", (2 : Int)).2 :=
  reachable_qty_positive (applyOp [] (Op.add "A" "1" 2))
    (Reach.step [] (Op.add "A" "1" 2) Reach.init) "A" [("1", 2)] (by decide)
    ("1", 2) (by decide)

/-- C9: in every reachable store state, every item id in any session's cart is
a catalog key, and consequently checkout's emptiness test over the priced line
items succeeds exactly when the cart mapping itself is empty. -/
theorem reachable_carts_catalog (s : Store) (h : Reach s) :
    (∀ sid c, alGet s sid = some c → ∀ p ∈ c, catalogFind p.1 ≠ none) ∧
    (∀ sid, (cartTotals ((alGet s sid).getD [])).1 = [] ↔ (alGet s sid).getD [] = []) := by
  have hWF := reach_storeWF h
  constructor
  · intro sid c h2 p hp
    exact (hWF (sid, c) (alGet_mem h2) p hp).1
  · intro sid
    rw [cartTotals_fst]
    exact lineItemsOf_eq_nil_iff (cartWF_getD hWF sid)

/-- C9 witness: after `add("B", "2", 3)` from the initial store, item `"2"` in
session `"B"`'s cart is a catalog key. -/
theorem reachable_carts_catalog_witness : catalogFind ("2", (3 : Int)).1 ≠ none :=
  (reachable_carts_catalog (applyOp [] (Op.add "B" "2" 3))
    (Reach.step [] (Op.add "B" "2" 3) Reach.init)).1 "B" [("2", 3)] (by decide)
    ("2", 3) (by decide)

/-- C6: for a fresh session, every catalog item and every positive quantity,
`add(item, n)` then `remove(item, n)` yields the pre-add cart state exactly:
the session's cart is the empty mapping, as it was before the add. -/
theorem add_remove_inverse (s : Store) (sid item : String) (n : Int)
    (hfresh : alGet s sid = none) (hcat : catalogFind item ≠ none) (hn : 0 < n) :
    alGet (removeFromCart (addToCart s sid item n).2 sid item n).2 sid = some [] ∧
    (alGet s sid).getD [] = [] := by
  have h1 : ¬(item = "" ∨ catalogFind item = none) := by
    rintro (h2 | h2)
    · subst h2; exact hcat (by decide)
    · exact hcat h2
  have h2 : ¬(n ≤ 0) := by omega
  constructor
  · have e1 : (addToCart s sid item n).2 = alSet s sid [(item, n)] := by
      simp only [addToCart, if_neg h1, if_neg h2, hfresh]
      simp [alSet, alGet]
    rw [e1]
    have e2 : (removeFromCart (alSet s sid [(item, n)]) sid item n).2 =
        alSet (alSet s sid [(item, n)]) sid [] := by
      simp only [removeFromCart, if_neg h1, if_neg h2, getOrCreate, alGet_alSet_self]
      simp [alGet, alErase]
    rw [e2, alGet_alSet_self]
  · rw [hfresh]
    rfl

/-- C6 witness: `add` then `remove` of item `"1"` with quantity 3 on the fresh
session `"A"` of the empty store restores the empty cart. -/
theorem add_remove_inverse_witness :
    alGet (removeFromCart (addToCart [] "A" "1" 3).2 "A" "1" 3).2 "A" = some [] ∧
    (alGet ([] : Store) "A").getD [] = [] :=
  add_remove_inverse [] "A" "1" 3 rfl (by decide) (by decide)

/-- C10: a `remove` on a session id with no store entry fails `NotInCart` yet
creates the session's entry mapped to the empty cart, whereas a `checkout` on
a session id with no store entry fails `EmptyCart` and creates nothing. -/
theorem remove_creates_session (s : Store) (sid item : String) (qty : Int)
    (oid : String) (hfresh : alGet s sid = none) (hcat : catalogFind item ≠ none)
    (hq : 0 < qty) :
    (removeFromCart s sid item qty).1 = .notInCart ∧
    alGet (removeFromCart s sid item qty).2 sid = some [] ∧
    (checkout s sid oid).1 = .emptyCart ∧
    (checkout s sid oid).2 = s ∧
    alGet (checkout s sid oid).2 sid = none := by
  have h1 : ¬(item = "" ∨ catalogFind item = none) := by
    rintro (h2 | h2)
    · subst h2; exact hcat (by decide)
    · exact hcat h2
  have h2 : ¬(qty ≤ 0) := by omega
  have hre : removeFromCart s sid item qty = (.notInCart, alSet s sid []) := by
    simp only [removeFromCart, if_neg h1, if_neg h2, getOrCreate, hfresh]
    simp [alGet]
  have hch : checkout s sid oid = (.emptyCart, s) := by
    simp only [checkout, hfresh]
    rfl
  refine ⟨?_, ?_, ?_, ?_, ?_⟩
  · rw [hre]
  · rw [hre]; exact alGet_alSet_self s sid []
  · rw [hch]
  · rw [hch]
  · rw [hch]; exact hfresh

/-- C10 witness: on the empty store, `remove("S", "2", 1)` fails `NotInCart`. -/
theorem remove_creates_session_witness :
    (removeFromCart [] "S" "2" 1).1 = RemoveRes.notInCart :=
  (remove_creates_session [] "S" "2" 1 "o" rfl (by decide) (by decide)).1

/-- C1: checkout fails `EmptyCart` iff the session's cart snapshot is empty,
leaving the cart untouched on that failure; on a nonempty cart it returns the
(non-empty) order id with the subtotal and line items priced from the
pre-checkout snapshot, leaves the cart empty, and an immediately following
checkout on the same session fails `EmptyCart`.  `StoreWF` holds of every
reachable store (`reach_storeWF`); `oid ≠ ""` models that `str(uuid.uuid4())`
is never the empty string. -/
theorem checkout_contract (s : Store) (sid oid : String)
    (hWF : StoreWF s) (hoid : oid ≠ "") :
    ((checkout s sid oid).1 = .emptyCart ↔ (alGet s sid).getD [] = []) ∧
    ((alGet s sid).getD [] = [] → (checkout s sid oid).2 = s) ∧
    ((alGet s sid).getD [] ≠ [] →
      (checkout s sid oid).1 =
        .order oid (cartTotals ((alGet s sid).getD [])).2
          (cartTotals ((alGet s sid).getD [])).1 ∧
      oid ≠ "" ∧
      alGet (checkout s sid oid).2 sid = some [] ∧
      ∀ oid2, (checkout (checkout s sid oid).2 sid oid2).1 = .emptyCart) := by
  have hiff : (cartTotals ((alGet s sid).getD [])).1 = [] ↔
      (alGet s sid).getD [] = [] := by
    rw [cartTotals_fst]
    exact lineItemsOf_eq_nil_iff (cartWF_getD hWF sid)
  by_cases hc : (cartTotals ((alGet s sid).getD [])).1 = []
  · have hcart := hiff.mp hc
    refine ⟨⟨fun _ => hcart, fun _ => ?_⟩, fun _ => ?_, fun h2 => absurd hcart h2⟩
    · simp only [checkout, hc, if_true]
    · simp only [checkout, hc, if_true]
  · have hcart : (alGet s sid).getD [] ≠ [] := fun h2 => hc (hiff.mpr h2)
    have hck : checkout s sid oid =
        (.order oid (cartTotals ((alGet s sid).getD [])).2
          (cartTotals ((alGet s sid).getD [])).1, alSet s sid []) := by
      simp only [checkout, hc, if_false]
    refine ⟨⟨fun h2 => ?_, fun h2 => absurd h2 hcart⟩, fun h2 => absurd h2 hcart,
      fun _ => ⟨?_, hoid, ?_, ?_⟩⟩
    · rw [hck] at h2
      cases h2
    · rw [hck]
    · rw [hck]
      exact alGet_alSet_self s sid []
    · intro oid2
      rw [hck]
      show (checkout (alSet s sid []) sid oid2).1 = .emptyCart
      simp only [checkout, alGet_alSet_self]
      rfl

/-- C1 witness: session `"A"` holding two units of item `"1"` (price 99.90)
checks out to the expected order with total 199.80. -/
theorem checkout_contract_witness :
    (checkout [("A", [("1", (2 : Int))])] "A" "o1").1 =
      .order "o1" (cartTotals ((alGet [("A", [("1", (2 : Int))])] "A").getD [])).2
        (cartTotals ((alGet [("A", [("1", (2 : Int))])] "A").getD [])).1 :=
  ((checkout_contract [("A", [("1", (2 : Int))])] "A" "o1" (by decide)
    (by decide)).2.2 (by decide)).1

/-- C2: launching `K` concurrent `checkout` threads against one session whose
cart prices to a nonempty item list yields, in every complete interleaving,
exactly one success and `K−1` `EmptyCart` failures with the cart left empty;
moreover in every reachable interleaving at most one thread is inside the
lock-guarded read-validate-clear critical section, so no interleaved operation
observes a state between checkout's read, emptiness check, and clear. -/
theorem checkout_atomic (K : Nat) (hK : 0 < K) (c0 : Cart)
    (h0 : (cartTotals c0).1 ≠ []) (cfg : Cfg K) (hr : CReach c0 cfg) :
    (∀ t u, inCS (cfg.ts t) → inCS (cfg.ts u) → t = u) ∧
    ((∀ t, doneAt (cfg.ts t)) →
      cfg.cart = [] ∧
      ∃ w, cfg.ts w = .doneOk ∧ ∀ t, t ≠ w → cfg.ts t = .doneEmpty) := by
  obtain ⟨hmux, hphase⟩ := creach_cinv h0 hr
  constructor
  · intro t u h1 h2
    have h3 := hmux t h1
    have h4 := hmux u h2
    rw [h3] at h4
    exact Option.some.inj h4
  · intro hdone
    rcases hphase with ⟨hcart, hall⟩ | ⟨w, hw, hoth, hcart⟩
    · exfalso
      have h2 := hdone ⟨0, hK⟩
      rcases hall ⟨0, hK⟩ with h3 | h3 <;> rw [h3] at h2 <;> simp [doneAt] at h2
    · have hwOk : cfg.ts w = .doneOk := by
        have h2 := hdone w
        rcases hw with h3 | h3 | h3
        · rw [h3] at h2; simp [doneAt] at h2
        · rw [h3] at h2; simp [doneAt] at h2
        · exact h3
      refine ⟨?_, w, hwOk, ?_⟩
      · rw [hwOk] at hcart
        simpa using hcart
      · intro t htw
        have h2 := hdone t
        rcases hoth t htw with h3 | h3 | h3 | h3
        · rw [h3] at h2; simp [doneAt] at h2
        · rw [h3] at h2; simp [doneAt] at h2
        · rw [h3] at h2; simp [doneAt] at h2
        · exact h3

/-- C7: each operation invoked with session id `A` leaves session `B`'s cart
entry unchanged, and its result is the same whether or not `B`'s cart is
replaced by anything else — operations on `A` neither alter nor observe `B`. -/
theorem cross_session_isolation (s : Store) (A B : String) (hAB : A ≠ B)
    (c2 : Cart) (item : String) (qty : Int) (oid : String) :
    (alGet (getOrCreate s A).2 B = alGet s B) ∧
    (alGet (addToCart s A item qty).2 B = alGet s B) ∧
    (alGet (removeFromCart s A item qty).2 B = alGet s B) ∧
    (alGet (clearCart s A) B = alGet s B) ∧
    (alGet (checkout s A oid).2 B = alGet s B) ∧
    ((getOrCreate (alSet s B c2) A).1 = (getOrCreate s A).1) ∧
    ((addToCart (alSet s B c2) A item qty).1 = (addToCart s A item qty).1) ∧
    ((removeFromCart (alSet s B c2) A item qty).1 = (removeFromCart s A item qty).1) ∧
    ((checkout (alSet s B c2) A oid).1 = (checkout s A oid).1) := by
  have hBA : B ≠ A := Ne.symm hAB
  have hA : alGet (alSet s B c2) A = alGet s A := alGet_alSet_ne s c2 hBA
  have hset : ∀ c3 : Cart, alGet (alSet s A c3) B = alGet s B :=
    fun c3 => alGet_alSet_ne s c3 hAB
  refine ⟨?_, ?_, ?_, hset [], ?_, ?_, ?_, ?_, ?_⟩
  · simp only [getOrCreate]
    cases h : alGet s A with
    | some c3 => rfl
    | none => exact hset []
  · simp only [addToCart]
    by_cases h1 : item = "" ∨ catalogFind item = none
    · simp only [h1, if_true]
    · simp only [h1, if_false]
      by_cases h2 : qty ≤ 0
      · simp only [h2, if_true]
      · simp only [h2, if_false]
        exact hset _
  · simp only [removeFromCart]
    by_cases h1 : item = "" ∨ catalogFind item = none
    · simp only [h1, if_true]
    · simp only [h1, if_false]
      by_cases h2 : qty ≤ 0
      · simp only [h2, if_true]
      · simp only [h2, if_false, getOrCreate]
        cases h3 : alGet s A with
        | none =>
          simp only [alGet]
          exact hset []
        | some cart =>
          cases h4 : alGet cart item with
          | none => simp only [h4]
          | some v => simp only [h4]; exact hset _
  · simp only [checkout]
    by_cases h1 : (cartTotals ((alGet s A).getD [])).1 = []
    · simp only [h1, if_true]
    · simp only [h1, if_false]
      exact hset []
  · simp only [getOrCreate, hA]
    cases h3 : alGet s A with
    | none => rfl
    | some cart => rfl
  · simp only [addToCart, hA]
    by_cases h1 : item = "" ∨ catalogFind item = none
    · simp only [h1, if_true]
    · simp only [h1, if_false]
      by_cases h2 : qty ≤ 0
      · simp only [h2, if_true]
      · simp only [h2, if_false]
  · simp only [removeFromCart, getOrCreate, hA]
    by_cases h1 : item = "" ∨ catalogFind item = none
    · simp only [h1, if_true]
    · simp only [h1, if_false]
      by_cases h2 : qty ≤ 0
      · simp only [h2, if_true]
      · simp only [h2, if_false]
        cases h3 : alGet s A with
        | none => rfl
        | some cart =>
          cases h4 : alGet cart item with
          | none => rfl
          | some v => rfl
  · simp only [checkout, hA]
    by_cases h1 : (cartTotals ((alGet s A).getD [])).1 = []
    · simp only [h1, if_true]
    · simp only [h1, if_false]

/-- C7 witness: `get_or_create` on session `"A"` leaves session `"B"`'s cart
entry of the concrete store unchanged. -/
theorem cross_session_isolation_witness :
    alGet (getOrCreate [("B", [("2", (1 : Int))])] "A").2 "B" =
      alGet [("B", [("2", (1 : Int))])] "B" :=
  (cross_session_isolation [("B", [("2", (1 : Int))])] "A" "B" (by decide)
    [("3", 5)] "1" 2 "o").1

/-- C2 witness: the complete execution of one checkout thread on the cart
`{"1": 2}` — acquire, read (nonempty), clear, release — ends with the one
success and the empty cart. -/
theorem checkout_atomic_witness :
    (∀ t u : Fin 1, inCS ((fun _ => TPc.doneOk) t) → inCS ((fun _ => TPc.doneOk) u) → t = u) ∧
    ((∀ t : Fin 1, doneAt ((fun _ => TPc.doneOk) t)) →
      ([] : Cart) = [] ∧
      ∃ w : Fin 1, (fun _ : Fin 1 => TPc.doneOk) w = TPc.doneOk ∧
        ∀ t, t ≠ w → (fun _ : Fin 1 => TPc.doneOk) t = TPc.doneEmpty) := by
  have r0 : CReach [("1", (2 : Int))] (⟨none, [("1", 2)], fun _ => TPc.idle⟩ : Cfg 1) :=
    CReach.init _ (fun _ => rfl)
  have s1 : CStep (⟨none, [("1", 2)], fun _ => TPc.idle⟩ : Cfg 1)
      ⟨some 0, [("1", 2)], fun _ => TPc.locked⟩ :=
    CStep.acquire _ 0 _ rfl rfl rfl (fun u hu => absurd (Subsingleton.elim u 0) hu)
  have s2 : CStep (⟨some 0, [("1", 2)], fun _ => TPc.locked⟩ : Cfg 1)
      ⟨some 0, [("1", 2)], fun _ => TPc.gotItems false⟩ :=
    CStep.read _ 0 _ rfl rfl (by decide) (fun u hu => absurd (Subsingleton.elim u 0) hu)
  have s3 : CStep (⟨some 0, [("1", 2)], fun _ => TPc.gotItems false⟩ : Cfg 1)
      ⟨some 0, [], fun _ => TPc.cleared⟩ :=
    CStep.clearStep _ 0 _ rfl rfl rfl (fun u hu => absurd (Subsingleton.elim u 0) hu)
  have s4 : CStep (⟨some 0, [], fun _ => TPc.cleared⟩ : Cfg 1)
      ⟨none, [], fun _ => TPc.doneOk⟩ :=
    CStep.okRelease _ 0 _ rfl rfl rfl (fun u hu => absurd (Subsingleton.elim u 0) hu)
  exact checkout_atomic 1 (by decide) [("1", 2)] (by decide)
    ⟨none, [], fun _ => TPc.doneOk⟩
    (CReach.step _ _ (CReach.step _ _ (CReach.step _ _ (CReach.step _ _ r0 s1) s2) s3) s4)

/-- C3 counterexample: the add request with `qty` the JSON string `""` — not a
positive integer — is answered 500 (the `ValueError` from `int("")` reaches the
global exception handler), not 400 `InvalidQuantity`. -/
theorem add_qty_nonint_is_500 :
    (addHandler [] none "f" "1" (JVal.jstr "")).1.status = 500 ∧
    (addHandler [] none "f" "1" (JVal.jstr "")).1.err ≠ some ErrTag.invalidQty := by
  decide

/-- C3 (amended): for a valid item id, an add or remove whose raw `qty`
converts via `int(...)` to a non-positive integer fails 400 `InvalidQuantity`
with the store unchanged; a raw `qty` on which `int(...)` raises yields a 500
response, also leaving the store unchanged. -/
theorem invalid_qty_handling (s : Store) (reqSid : Option String)
    (fresh item : String) (qtyRaw : JVal)
    (hitem1 : item ≠ "") (hitem2 : catalogFind item ≠ none) :
    (∀ qty, pyInt qtyRaw = some qty → qty ≤ 0 →
      (addHandler s reqSid fresh item qtyRaw).1 =
        ⟨400, some .invalidQty, some (effectiveSid reqSid fresh)⟩ ∧
      (addHandler s reqSid fresh item qtyRaw).2 = s ∧
      (removeHandler s reqSid fresh item qtyRaw).1 =
        ⟨400, some .invalidQty, some (effectiveSid reqSid fresh)⟩ ∧
      (removeHandler s reqSid fresh item qtyRaw).2 = s) ∧
    (pyInt qtyRaw = none →
      (addHandler s reqSid fresh item qtyRaw).1.status = 500 ∧
      (addHandler s reqSid fresh item qtyRaw).2 = s ∧
      (removeHandler s reqSid fresh item qtyRaw).1.status = 500 ∧
      (removeHandler s reqSid fresh item qtyRaw).2 = s) := by
  have h1 : ¬(item = "" ∨ catalogFind item = none) := by
    rintro (h2 | h2)
    · exact hitem1 h2
    · exact hitem2 h2
  constructor
  · intro qty hq hle
    have hadd : addToCart s (effectiveSid reqSid fresh) item qty = (.invalidQty, s) := by
      simp only [addToCart, if_neg h1, if_pos hle]
    have hrem : removeFromCart s (effectiveSid reqSid fresh) item qty = (.invalidQty, s) := by
      simp only [removeFromCart, if_neg h1, if_pos hle]
    refine ⟨?_, ?_, ?_, ?_⟩ <;> simp only [addHandler, removeHandler, hq, hadd, hrem]
  · intro hq
    refine ⟨?_, ?_, ?_, ?_⟩ <;> simp only [addHandler, removeHandler, hq]

/-- C3 witness: with valid item `"1"` and raw quantity `0`, both add and
remove answer 400 `InvalidQuantity` and leave the empty store unchanged. -/
theorem invalid_qty_handling_witness :
    (addHandler [] none "f" "1" (JVal.jint 0)).1 =
      ⟨400, some ErrTag.invalidQty, some (effectiveSid none "f")⟩ ∧
    (addHandler [] none "f" "1" (JVal.jint 0)).2 = [] ∧
    (removeHandler [] none "f" "1" (JVal.jint 0)).1 =
      ⟨400, some ErrTag.invalidQty, some (effectiveSid none "f")⟩ ∧
    (removeHandler [] none "f" "1" (JVal.jint 0)).2 = [] :=
  (invalid_qty_handling [] none "f" "1" (JVal.jint 0) (by decide) (by decide)).1
    0 rfl (by decide)

/-- C8 counterexample: the `GET /healthz` response carries no session id
header — `health` never calls `attach_session_header`. -/
theorem healthz_no_session_header : healthHandler.sessionHeader = none := rfl

/-- C8 (amended): every response except `GET /healthz` and those produced by
the global exception handler (reached, e.g., when `int(...)` raises in
add/remove) carries the `X-Session-Id` header holding the effective session
id: the request header's value if present and non-empty, else the freshly
minted id. -/
theorem session_header_attached (s : Store) (reqSid : Option String)
    (fresh item oid : String) (qtyRaw : JVal) (qty : Int)
    (hq : pyInt qtyRaw = some qty) :
    (catalogHandler reqSid fresh).sessionHeader = some (effectiveSid reqSid fresh) ∧
    (viewCartHandler s reqSid fresh).1.sessionHeader = some (effectiveSid reqSid fresh) ∧
    (addHandler s reqSid fresh item qtyRaw).1.sessionHeader = some (effectiveSid reqSid fresh) ∧
    (removeHandler s reqSid fresh item qtyRaw).1.sessionHeader = some (effectiveSid reqSid fresh) ∧
    (clearHandler s reqSid fresh).1.sessionHeader = some (effectiveSid reqSid fresh) ∧
    (checkoutHandler s reqSid fresh oid).1.sessionHeader = some (effectiveSid reqSid fresh) := by
  refine ⟨rfl, rfl, ?_, ?_, rfl, ?_⟩
  · cases hr : (addToCart s (effectiveSid reqSid fresh) item qty).1 <;>
      simp [addHandler, hq, hr]
  · cases hr : (removeFromCart s (effectiveSid reqSid fresh) item qty).1 <;>
      simp [removeHandler, hq, hr]
  · cases hr : (checkout s (effectiveSid reqSid fresh) oid).1 <;>
      simp [checkoutHandler, hr]

/-- C8 witness: the catalog response echoes the request's session id `"sess"`. -/
theorem session_header_attached_witness :
    (catalogHandler (some "sess") "fresh").sessionHeader =
      some (effectiveSid (some "sess") "fresh") :=
  (session_header_attached [] (some "sess") "fresh" "1" "o" (JVal.jint 1) 1 rfl).1

end Shop

